import Mathlib

/-!
# Verification of the Nautalis web crawler core (`crawler.py`)

This file gives a shallow embedding of the crawling engine of the
repository (`src/crawler.py`): the URL normalizer, the URL validity
filter, the robots.txt politeness gate (`RobotsChecker`), the frontier
(`visited_urls` / `queued_urls` / `url_queue`), the fetch/parse pipeline
(`fetch_url`), the worker loop (`worker`) and the seeding loop of
`crawl`.  All network and HTML-parsing effects are represented by
explicit oracle inputs (the observed HTTP outcomes and the links a page
yields); exceptions are represented by `Option` (`none` = the Python
call raised).  Machine reals (timestamps, delays) do not influence any
control flow and are omitted from the state.

The URL parser below is a translation of CPython `urllib.parse.urlsplit`
/ `urlparse` / `urlunsplit` / `urlunparse` restricted to the behaviour
relevant here: ASCII inputs, the WHATWG control-character stripping, the
scheme / netloc / fragment / query / params splits, and the
`ValueError("Invalid IPv6 URL")` raised on a netloc containing an
unmatched square bracket (modelled as `none`).
-/

/-- A character of `_WHATWG_C0_CONTROL_OR_SPACE` (code points 0x00–0x20),
stripped from the front of the URL by `urlsplit`. -/
def isC0ControlOrSpace (c : Char) : Bool := c.toNat ≤ 32

/-- A character of `_UNSAFE_URL_BYTES_TO_REMOVE` (`"\t\r\n"`), removed
everywhere in the URL by `urlsplit`. -/
def isUnsafeUrlByte (c : Char) : Bool := c = '\t' || c = '\r' || c = '\n'

/-- A character of `scheme_chars` (letters, digits, `+`, `-`, `.`). -/
def isSchemeChar (c : Char) : Bool := c.isAlpha || c.isDigit || c = '+' || c = '-' || c = '.'

/-- The cleanup `urlsplit` applies before parsing: `lstrip` of C0
controls and space, then removal of tab, CR and LF. -/
def cleanUrl (cs : List Char) : List Char :=
  (cs.dropWhile isC0ControlOrSpace).filter (fun c => !isUnsafeUrlByte c)

/-- The scheme split of `urlsplit`: `i = url.find(':')`; when `i > 0`,
`url[0]` is an ASCII letter and every character of `url[:i]` is a scheme
character, the scheme is `url[:i].lower()` and the remainder is
`url[i+1:]`; otherwise the scheme is empty. -/
def splitScheme (cs : List Char) : List Char × List Char :=
  match cs.findIdx? (· = ':') with
  | none => ([], cs)
  | some i =>
    if 0 < i ∧ (cs.take 1).all Char.isAlpha ∧ (cs.take i).all isSchemeChar then
      ((cs.take i).map Char.toLower, cs.drop (i + 1))
    else ([], cs)

/-- A delimiter ending the netloc in `_splitnetloc` (`'/'`, `'?'`, `'#'`). -/
def isNetlocEnd (c : Char) : Bool := c = '/' || c = '?' || c = '#'

/-- Python `url.split('#', 1)` guarded by `'#' in url`: the part before the
first `'#'` and the fragment after it (empty when there is none). -/
def splitFragment (cs : List Char) : List Char × List Char :=
  if '#' ∈ cs then (cs.takeWhile (· ≠ '#'), (cs.dropWhile (· ≠ '#')).drop 1)
  else (cs, [])

/-- Python `url.split('?', 1)` guarded by `'?' in url`. -/
def splitQuery (cs : List Char) : List Char × List Char :=
  if '?' ∈ cs then (cs.takeWhile (· ≠ '?'), (cs.dropWhile (· ≠ '?')).drop 1)
  else (cs, [])

/-- Index of the last occurrence of `c` (Python `str.rfind`). -/
def rfindIdx (c : Char) (cs : List Char) : Option Nat :=
  match cs.reverse.findIdx? (· = c) with
  | none => none
  | some k => some (cs.length - 1 - k)

/-- Model of `urllib.parse._splitparams`: when the path contains `'/'`, the
params are what follows the first `';'` at or after the last `'/'`
(none if there is no such `';'`); otherwise what follows the first
`';'`. -/
def splitParamsPart (cs : List Char) : List Char × List Char :=
  match rfindIdx '/' cs with
  | some j =>
    match (cs.drop j).findIdx? (· = ';') with
    | none => (cs, [])
    | some k => (cs.take (j + k), cs.drop (j + k + 1))
  | none =>
    match cs.findIdx? (· = ';') with
    | none => (cs, [])
    | some i => (cs.take i, cs.drop (i + 1))

/-- The list `urllib.parse.uses_params`. -/
def usesParams : List String :=
  ["", "ftp", "hdl", "prospero", "http", "imap", "https", "shttp", "rtsp",
   "rtspu", "sip", "sips", "mms", "sftp", "tel"]

/-- The six components of `urllib.parse.ParseResult`. -/
structure UrlParts where
  scheme : String
  netloc : String
  path : String
  params : String
  query : String
  fragment : String
deriving DecidableEq, Repr

/-- The netloc `urlsplit` isolates (`_splitnetloc`): when the remainder
after the scheme starts with `"//"`, everything from there up to the
first `'/'`, `'?'` or `'#'`; otherwise empty. -/
def netlocOf (cs : List Char) : List Char :=
  if (splitScheme cs).2.take 2 = ['/', '/'] then
    ((splitScheme cs).2.drop 2).takeWhile (fun c => !isNetlocEnd c)
  else []

/-- What remains of the URL once scheme and netloc are removed. -/
def restAfterNetloc (cs : List Char) : List Char :=
  if (splitScheme cs).2.take 2 = ['/', '/'] then
    ((splitScheme cs).2.drop 2).dropWhile (fun c => !isNetlocEnd c)
  else (splitScheme cs).2

/-- Model of `urllib.parse.urlparse` (i.e. `urlsplit` plus the params split).
`none` models the `ValueError("Invalid IPv6 URL")` that `urlsplit`
raises when the netloc contains a `'['` without `']'` or vice versa.
The model's scope is ASCII inputs: for an ASCII netloc CPython's
`_checknetloc` returns immediately (its `netloc.isascii()` early
return), so the bracket mismatch is then the only raise; the further
`ValueError` `_checknetloc` raises on certain **non-ASCII** netlocs
(those whose NFKC normalization introduces one of `/?#@:`, e.g.
`"http://℀"`) involves Unicode NFKC and is outside this model —
theorems about totality therefore carry an explicit ASCII
hypothesis. -/
def urlparse? (url : String) : Option UrlParts :=
  let cs := cleanUrl url.data
  let sr := splitScheme cs
  let netloc : List Char := netlocOf cs
  let rest : List Char := restAfterNetloc cs
  if ('[' ∈ netloc ∧ ']' ∉ netloc) ∨ (']' ∈ netloc ∧ '[' ∉ netloc) then
    none
  else
    let fr := splitFragment rest
    let qr := splitQuery fr.1
    let pp :=
      if String.mk sr.1 ∈ usesParams ∧ ';' ∈ qr.1 then splitParamsPart qr.1
      else (qr.1, [])
    some ⟨String.mk sr.1, String.mk netloc, String.mk pp.1, String.mk pp.2,
          String.mk qr.2, String.mk fr.2⟩

/-- Python `str.lower` restricted to ASCII (all strings handled by the
crawler's control flow are ASCII). -/
def strToLower (s : String) : String := String.mk (s.data.map Char.toLower)

/-- Python `s.endswith(pat)`. -/
def strEndsWith (s pat : String) : Bool := pat.data.reverse.isPrefixOf s.data.reverse

/-- Python `pat in s` (substring containment) on character lists. -/
def listContainsSub : List Char → List Char → Bool
  | l, pat =>
    if pat.isPrefixOf l then true
    else match l with
      | [] => false
      | _ :: tl => listContainsSub tl pat

/-- Python `pat in s` (substring containment) on strings. -/
def strContains (s pat : String) : Bool := listContainsSub s.data pat.data

/-- Model of `urllib.parse.urlunsplit`. -/
def urlunsplit (scheme netloc url query fragment : String) : String :=
  let url1 :=
    if netloc ≠ "" ∨ (url ≠ "" ∧ url.data.take 2 = ['/', '/']) then
      "//" ++ netloc ++ (if url ≠ "" ∧ url.data.take 1 ≠ ['/'] then "/" ++ url else url)
    else url
  let url2 := if scheme ≠ "" then scheme ++ ":" ++ url1 else url1
  let url3 := if query ≠ "" then url2 ++ "?" ++ query else url2
  if fragment ≠ "" then url3 ++ "#" ++ fragment else url3

/-- Model of `urllib.parse.urlunparse`. -/
def urlunparse (p : UrlParts) : String :=
  urlunsplit p.scheme p.netloc
    (if p.params ≠ "" then p.path ++ ";" ++ p.params else p.path)
    p.query p.fragment

/-- Model of `WebCrawler.normalize_url` (crawler.py lines 100–112): parse, then
reassemble with lower-cased scheme and netloc, the original path, params
and query, and an empty fragment.  `none` models the `ValueError`
propagated from `urlparse` (the method has no exception handler). -/
def normalize_url (url : String) : Option String :=
  (urlparse? url).map fun p =>
    urlunparse ⟨strToLower p.scheme, strToLower p.netloc, p.path, p.params, p.query, ""⟩

/-- The `skip_extensions` set of `WebCrawler.is_valid_url`. -/
def skipExtensions : List String :=
  [".jpg", ".jpeg", ".png", ".gif", ".bmp", ".ico",
   ".pdf", ".doc", ".docx", ".xls", ".xlsx", ".zip",
   ".tar", ".gz", ".mp3", ".mp4", ".avi", ".mov"]

/-- The configuration fields of `CrawlerConfig` (config.py) that the
crawler core consults.  `delay` and `timeout` only produce sleeps and
network deadlines and never affect the state logic, so they are
omitted; `max_depth` and `max_pages` are Python `int`s, kept as `Int`. -/
structure CrawlerConfig where
  max_depth : Int := 3
  max_pages : Int := 1000
  max_workers : Int := 10
  stay_in_domain : Bool := true
deriving DecidableEq, Repr

/-- Model of `WebCrawler.is_valid_url` (crawler.py lines 114–146).  The
`base_domain` parameter is `None` or a host string; the domain check
runs only when `base_domain` is truthy (non-`None` and non-empty) and
`stay_in_domain` is set.  The `try`/`except` wrapper catching the parse
error becomes the `none => false` branch. -/
def is_valid_url (cfg : CrawlerConfig) (url : String) (base_domain : Option String) : Bool :=
  match urlparse? url with
  | none => false
  | some p =>
    if p.scheme == "" || p.netloc == "" then false
    else if !(p.scheme == "http" || p.scheme == "https") then false
    else if (match base_domain with
             | some b => b != "" && cfg.stay_in_domain && strToLower p.netloc != strToLower b
             | none => false) then false
    else if skipExtensions.any (fun e => strEndsWith (strToLower p.path) e) then false
    else true

/-!
## Politeness gate (`RobotsChecker`, crawler.py lines 32–69)

`urllib.robotparser.RobotFileParser` offers `set_url`, `read`, `parse`,
`can_fetch`, `mtime`, `modified`, `crawl_delay`, `request_rate` and
`site_maps` — it has **no** method `feed`.  Every call `rp.feed(...)` in
`RobotsChecker.can_fetch` therefore raises `AttributeError`; `none`
models that raise below.
-/

/-- Model of a `urllib.robotparser.RobotFileParser` object:
`__init__` sets `disallow_all = allow_all = False` and
`last_checked = 0` (here `0` stands for "never"; `modified()` would
store a positive wall-clock time).  The `entries` / `default_entry`
fields are omitted because the only mutators that fill them
(`read` / `parse`) are never invoked by this program — `feed` raises
before any such mutation — so they stay `[]` / `None` in every object
this program can build. -/
structure RobotFileParser where
  url : String := ""
  disallow_all : Bool := false
  allow_all : Bool := false
  last_checked : Nat := 0
deriving DecidableEq, Repr

/-- Model of `RobotFileParser.set_url`. -/
def RobotFileParser.set_url (rp : RobotFileParser) (u : String) : RobotFileParser :=
  { rp with url := u }

/-- The attribute access `rp.feed`: `RobotFileParser` has no such
method, so the call raises `AttributeError` (`none`) for every
argument. -/
def RobotFileParser.feed (_ : RobotFileParser) (_ : String) : Option RobotFileParser :=
  none

/-- Model of `RobotFileParser.can_fetch`: `False` when `disallow_all`,
`True` when `allow_all`, `False` when the robots file was never read
(`last_checked` still `0`), and otherwise the entry matching — which,
for the entry-less parsers this program can build (`feed` raises
before `parse` could ever run, so `entries = []` and
`default_entry = None`), falls through to CPython's final
"agent not found ==> access granted" `return True`. -/
def RobotFileParser.verdict (rp : RobotFileParser) (_ua _url : String) : Bool :=
  if rp.disallow_all then false
  else if rp.allow_all then true
  else if rp.last_checked = 0 then false
  else true

/-- The observable outcome of `session.get(robots_url, ...)`:
either a response with a status and body, or a raised exception
(network error / timeout). -/
inductive RobotsNet where
  | success (status : Nat) (body : String)
  | failure
deriving DecidableEq, Repr

/-- The state of `RobotsChecker`: the per-domain cache.  The
`user_agent` field is the constant `"NautalisBot/1.0"`. -/
structure RobotsChecker where
  robots_cache : List (String × RobotFileParser) := []
deriving DecidableEq, Repr

/-- Model of `RobotsChecker.can_fetch` (crawler.py lines 39–69).  The outer
`try` covers everything and its `except` returns `True`; the inner
`try` covers the robots fetch, and its `except` handler itself calls
`rp.feed("")`.  Since `rp.feed` raises `AttributeError` on every path
(200 branch, non-200 branch, and again inside the inner `except`
handler), line 64's cache insertion is never reached and the outer
`except` yields `True`. -/
def RobotsChecker.can_fetch (rc : RobotsChecker) (net : RobotsNet) (url : String) :
    RobotsChecker × Bool :=
  match urlparse? url with
  | none => (rc, true)
  | some p =>
    let domain := p.scheme ++ "://" ++ p.netloc
    match rc.robots_cache.lookup domain with
    | some rp => (rc, rp.verdict "NautalisBot/1.0" url)
    | none =>
      let robots_url := domain ++ "/robots.txt"
      let rp : RobotFileParser := {}
      let built : Option RobotFileParser :=
        match net with
        | .success status body =>
          match (if status = 200 then (rp.set_url robots_url).feed body
                 else (rp.set_url robots_url).feed "") with
          | some rp1 => some rp1
          | none => (rp.set_url robots_url).feed ""
        | .failure => (rp.set_url robots_url).feed ""
      match built with
      | some rp1 =>
        ({ rc with robots_cache := (domain, rp1) :: rc.robots_cache },
         rp1.verdict "NautalisBot/1.0" url)
      | none => (rc, true)

/-!
## Frontier, fetch pipeline and worker loop (`WebCrawler`)

The shared mutable state of `WebCrawler` is the two membership sets,
the FIFO queue and the statistics counters.  Workers run cooperatively
on one event loop, so one loop iteration is modelled as a sequential
step; the network and the HTML parser are oracles:  a `FetchEvent` is
what `fetch_url` observes for one task (the robots verdict, then the
HTTP outcome; for an HTML page, the title extracted by BeautifulSoup
and the absolute URLs its anchors resolve to via `urljoin`).
-/

/-- Model of `CrawlResult` (crawler.py lines 21–30), minus the wall-clock
`timestamp`. -/
structure CrawlResult where
  url : String
  status_code : Nat
  title : String
  content_length : Nat
  links : List String
  error : Option String := none
deriving DecidableEq, Repr

/-- The shared state of `WebCrawler`: `visited_urls`, `queued_urls`,
`url_queue` and the `stats` counters (sets kept as lists; membership is
all the code uses). -/
structure CrawlState where
  visited : List String := []
  queued : List String := []
  queue : List (String × Nat) := []
  total_crawled : Nat := 0
  successful : Nat := 0
  failed : Nat := 0
  robots_blocked : Nat := 0
deriving DecidableEq, Repr

/-- The crawler's initial state (`WebCrawler.__init__`). -/
def initState : CrawlState := {}

/-- Python `list(set(links))` at the end of `extract_links`: deduplication.
Python's set order is unspecified; first-occurrence order is chosen
here (no verified property depends on the order). -/
def dedupList : List String → List String → List String
  | [], _ => []
  | x :: xs, seen => if x ∈ seen then dedupList xs seen else x :: dedupList xs (x :: seen)

/-- Model of `WebCrawler.extract_links` (crawler.py lines 148–173), abstracted
over BeautifulSoup and `urljoin`: `absLinks` stands for the absolute
URLs obtained from the page's `<a href>` and `<link href>` attributes.
Each is filtered through `is_valid_url` (with no base domain) and
normalized; `normalize_url` cannot raise here because validity implies
the URL parses.  The final list is deduplicated. -/
def extract_links (cfg : CrawlerConfig) (absLinks : List String) : List String :=
  dedupList (absLinks.filterMap fun a =>
    if is_valid_url cfg a none then normalize_url a else none) []

/-- One iteration of the link-admission loop of `fetch_url`
(crawler.py lines 225–231): enqueue `link` at `depth + 1` when it is in
neither `visited_urls` nor `queued_urls` and passes `is_valid_url`
against the origin page's domain. -/
def linkAdmit (cfg : CrawlerConfig) (depth : Nat) (base : Option String)
    (s : CrawlState) (link : String) : CrawlState :=
  if link ∉ s.visited ∧ link ∉ s.queued ∧ is_valid_url cfg link base = true then
    { s with queued := link :: s.queued, queue := s.queue ++ [(link, depth + 1)] }
  else s

/-- The whole link-admission loop of `fetch_url`. -/
def admitLinks (cfg : CrawlerConfig) (s : CrawlState) (base : Option String)
    (depth : Nat) (links : List String) : CrawlState :=
  links.foldl (linkAdmit cfg depth base) s

/-- What the session delivers to `fetch_url` for one task:
`robotsBlocked` is `can_fetch` returning `False` (the branch at lines
190–193; by `robots_gate_always_allows_and_never_caches` the shipped
checker never actually returns `False` from its reachable empty-cache
state, but `fetch_url` is modelled uniformly in the
verdict), `timeout` is `asyncio.TimeoutError`, `exc` any other raised
exception with its message, and `response` an HTTP response carrying
the status, the `content-type` header, and — for HTML — the extracted
title, the body length and the absolute link targets. -/
inductive FetchEvent where
  | robotsBlocked
  | timeout
  | exc (msg : String)
  | response (status : Nat) (contentType : String) (title : String)
      (htmlLen : Nat) (absLinks : List String)
deriving DecidableEq, Repr

/-- Model of `WebCrawler.fetch_url` (crawler.py lines 186–253).  Returns the
updated shared state and `None` (robots-blocked) or a `CrawlResult`.
A non-HTML `content-type` short-circuits with empty title/links; an
HTML response is parsed and, when `depth < max_depth`, its links are
admitted against the origin page's own netloc (when `stay_in_domain`
is set).  `urlparse(url)` raising inside the `try` is caught by the
generic `except` at line 248, producing a status-0 record. -/
def fetch_url (cfg : CrawlerConfig) (s : CrawlState) (url : String) (depth : Nat)
    (ev : FetchEvent) : CrawlState × Option CrawlResult :=
  match ev with
  | .robotsBlocked => ({ s with robots_blocked := s.robots_blocked + 1 }, none)
  | .timeout =>
    (s, some { url := url, status_code := 0, title := "", content_length := 0,
               links := [], error := some "Timeout" })
  | .exc msg =>
    (s, some { url := url, status_code := 0, title := "", content_length := 0,
               links := [], error := some msg })
  | .response status contentType title htmlLen absLinks =>
    if strContains (strToLower contentType) "text/html" = false then
      (s, some { url := url, status_code := status, title := "", content_length := 0,
                 links := [], error := none })
    else
      let links := extract_links cfg absLinks
      if (depth : Int) < cfg.max_depth then
        if cfg.stay_in_domain then
          match urlparse? url with
          | none =>
            (s, some { url := url, status_code := 0, title := "", content_length := 0,
                       links := [], error := some "Invalid IPv6 URL" })
          | some p =>
            (admitLinks cfg s (some p.netloc) depth links,
             some { url := url, status_code := status, title := title,
                    content_length := htmlLen, links := links, error := none })
        else
          (admitLinks cfg s none depth links,
           some { url := url, status_code := status, title := title,
                  content_length := htmlLen, links := links, error := none })
      else
        (s, some { url := url, status_code := status, title := title,
                   content_length := htmlLen, links := links, error := none })

/-- Whether a worker iteration ends the loop (`break` /
`TimeoutError`) or goes round again (`continue` / fall-through). -/
inductive StepResult where
  | cont
  | exit
deriving DecidableEq, Repr

/-- Model of `visited_urls.add(url)` (crawler.py line 268). -/
def markVisited (s : CrawlState) (url : String) : CrawlState :=
  { s with visited := url :: s.visited }

/-- The store-and-count tail of the worker body (crawler.py lines
274–294), entered when `fetch_url` returned a result and
`db.store_page` did not raise: bump `successful` exactly on status 200
and `failed` otherwise, bump `total_crawled`, and `break` when the
positive `max_pages` budget has been reached. -/
def recordStats (cfg : CrawlerConfig) (s : CrawlState) (r : CrawlResult) :
    CrawlState × StepResult :=
  let s1 := if r.status_code = 200 then { s with successful := s.successful + 1 }
            else { s with failed := s.failed + 1 }
  let s2 := { s1 with total_crawled := s1.total_crawled + 1 }
  if 0 < cfg.max_pages ∧ (cfg.max_pages : Int) ≤ (s2.total_crawled : Int) then (s2, .exit)
  else (s2, .cont)

/-- One iteration of `WebCrawler.worker` (crawler.py lines 255–303).
An empty queue stands for the bounded `asyncio.wait_for(queue.get(),
5.0)` timing out (sustained emptiness), which `break`s the loop.  A
dequeued URL already in `visited_urls` is skipped.  Otherwise the URL
is marked visited and fetched; `storeOk = false` models
`db.store_page` raising, which the `except` at line 301 logs before
the loop continues (the counters are then left untouched). -/
def workerStep (cfg : CrawlerConfig) (s : CrawlState) (ev : FetchEvent)
    (storeOk : Bool) : CrawlState × StepResult :=
  match s.queue with
  | [] => (s, .exit)
  | (url, depth) :: rest =>
    let s1 : CrawlState := { s with queue := rest }
    if url ∈ s1.visited then (s1, .cont)
    else
      let fr := fetch_url cfg (markVisited s1 url) url depth ev
      match fr.2 with
      | none => (fr.1, .cont)
      | some r => if storeOk then recordStats cfg fr.1 r else (fr.1, .cont)

/-- A sequence of worker iterations driven by a list of oracle inputs,
stopping at the first iteration that exits the loop. -/
def runEvents (cfg : CrawlerConfig) : CrawlState → List (FetchEvent × Bool) → CrawlState
  | s, [] => s
  | s, e :: es =>
    match workerStep cfg s e.1 e.2 with
    | (s1, .exit) => s1
    | (s1, .cont) => runEvents cfg s1 es

/-- The URL a worker iteration *processes* (dequeues and finds not yet
visited), if any — the URL the frontier "yields" in the spec's sense. -/
def stepProcessed (s : CrawlState) : Option String :=
  match s.queue with
  | [] => none
  | (url, _) :: _ => if url ∈ s.visited then none else some url

/-- The URLs yielded along a run, in order. -/
def processedList (cfg : CrawlerConfig) : CrawlState → List (FetchEvent × Bool) → List String
  | _, [] => []
  | s, e :: es =>
    match workerStep cfg s e.1 e.2 with
    | (_, .exit) => (stepProcessed s).toList
    | (s1, .cont) => (stepProcessed s).toList ++ processedList cfg s1 es

/-- One iteration of the seed loop of `WebCrawler.crawl` (crawler.py
lines 316–320): normalize the seed (a raised `ValueError` propagates
and aborts `crawl`, hence `Option`), then — with no membership check —
enqueue it at depth 0 if it is valid. -/
def seedStep (cfg : CrawlerConfig) (s : CrawlState) (url : String) : Option CrawlState :=
  match normalize_url url with
  | none => none
  | some n =>
    if is_valid_url cfg n none then
      some { s with queued := n :: s.queued, queue := s.queue ++ [(n, 0)] }
    else some s

/-- The whole seed loop of `WebCrawler.crawl`. -/
def crawlSeeds (cfg : CrawlerConfig) (seeds : List String) (s : CrawlState) :
    Option CrawlState :=
  seeds.foldlM (seedStep cfg) s

/-- How many entries for `u` the queue holds. -/
def queueCount (u : String) (q : List (String × Nat)) : Nat :=
  (q.filter fun p => p.1 == u).length

/-- A convenient default configuration (the `CrawlerConfig` defaults:
`max_depth = 3`, `max_pages = 1000`, `stay_in_domain = True`). -/
def cfg0 : CrawlerConfig := {}

example : urlparse? "HTTP://Example.COM/A/b?q=1#frag" =
    some ⟨"http", "Example.COM", "/A/b", "", "q=1", "frag"⟩ := by decide
example : normalize_url "HTTP://Example.COM/A/b?q=1#frag" =
    some "http://example.com/A/b?q=1" := by decide
example : normalize_url "http://[foo" = none := by decide
example : is_valid_url {} "http://a.test/x" none = true := by decide
example : is_valid_url {} "http://a.test/pic.JPG" none = false := by decide
example : is_valid_url {} "ftp://a.test/x" none = false := by decide
example : is_valid_url {} "http://b.test/x" (some "a.test") = false := by decide
example : is_valid_url {} "http://A.TEST/x" (some "a.test") = true := by decide

/-!
## Helper lemmas
-/

theorem linkAdmit_fields (cfg : CrawlerConfig) (depth : Nat) (base : Option String)
    (s : CrawlState) (link : String) :
    (linkAdmit cfg depth base s link).visited = s.visited ∧
    (linkAdmit cfg depth base s link).total_crawled = s.total_crawled ∧
    (linkAdmit cfg depth base s link).successful = s.successful ∧
    (linkAdmit cfg depth base s link).failed = s.failed ∧
    (linkAdmit cfg depth base s link).robots_blocked = s.robots_blocked := by
  unfold linkAdmit
  split <;> simp

theorem admitLinks_fields (cfg : CrawlerConfig) (base : Option String) (depth : Nat)
    (links : List String) (s : CrawlState) :
    (admitLinks cfg s base depth links).visited = s.visited ∧
    (admitLinks cfg s base depth links).total_crawled = s.total_crawled ∧
    (admitLinks cfg s base depth links).successful = s.successful ∧
    (admitLinks cfg s base depth links).failed = s.failed ∧
    (admitLinks cfg s base depth links).robots_blocked = s.robots_blocked := by
  induction links generalizing s with
  | nil => simp [admitLinks]
  | cons l ls ih =>
    obtain ⟨v1, t1, u1, f1, r1⟩ := linkAdmit_fields cfg depth base s l
    obtain ⟨v2, t2, u2, f2, r2⟩ := ih (linkAdmit cfg depth base s l)
    simp only [admitLinks, List.foldl_cons] at v2 t2 u2 f2 r2 ⊢
    exact ⟨v2.trans v1, t2.trans t1, u2.trans u1, f2.trans f1, r2.trans r1⟩

theorem fetch_url_fields (cfg : CrawlerConfig) (s : CrawlState) (url : String)
    (depth : Nat) (ev : FetchEvent) :
    (fetch_url cfg s url depth ev).1.visited = s.visited ∧
    (fetch_url cfg s url depth ev).1.total_crawled = s.total_crawled ∧
    (fetch_url cfg s url depth ev).1.successful = s.successful ∧
    (fetch_url cfg s url depth ev).1.failed = s.failed := by
  unfold fetch_url
  cases ev with
  | robotsBlocked => simp
  | timeout => simp
  | exc msg => simp
  | response status ct title len links =>
    simp only
    split
    · simp
    · split
      · split
        · split
          · simp
          · rename_i p hp
            have h := admitLinks_fields cfg (some p.netloc) depth (extract_links cfg links) s
            exact ⟨h.1, h.2.1, h.2.2.1, h.2.2.2.1⟩
        · have h := admitLinks_fields cfg none depth (extract_links cfg links) s
          exact ⟨h.1, h.2.1, h.2.2.1, h.2.2.2.1⟩
      · simp

theorem recordStats_fields (cfg : CrawlerConfig) (s : CrawlState) (r : CrawlResult) :
    (recordStats cfg s r).1.visited = s.visited ∧
    (recordStats cfg s r).1.queue = s.queue ∧
    (recordStats cfg s r).1.queued = s.queued ∧
    (recordStats cfg s r).1.robots_blocked = s.robots_blocked ∧
    (recordStats cfg s r).1.total_crawled = s.total_crawled + 1 := by
  unfold recordStats
  by_cases h : r.status_code = 200 <;> simp [h] <;> split <;> simp

theorem recordStats_counters (cfg : CrawlerConfig) (s : CrawlState) (r : CrawlResult) :
    (r.status_code = 200 →
      (recordStats cfg s r).1.successful = s.successful + 1 ∧
      (recordStats cfg s r).1.failed = s.failed) ∧
    (r.status_code ≠ 200 →
      (recordStats cfg s r).1.successful = s.successful ∧
      (recordStats cfg s r).1.failed = s.failed + 1) := by
  unfold recordStats
  by_cases h : r.status_code = 200 <;> simp [h] <;> split <;> simp

theorem workerStep_visited_mono (cfg : CrawlerConfig) (s : CrawlState) (ev : FetchEvent)
    (ok : Bool) : s.visited ⊆ (workerStep cfg s ev ok).1.visited := by
  unfold workerStep
  cases hq : s.queue with
  | nil => simp
  | cons hd tl =>
    obtain ⟨url, depth⟩ := hd
    simp only
    split
    · simp
    · have hf := (fetch_url_fields cfg (markVisited { s with queue := tl } url) url depth ev).1
      split
      · rename_i heq
        intro x hx
        rw [hf]
        simp [markVisited]
        exact Or.inr hx
      · rename_i r heq
        split
        · intro x hx
          rw [(recordStats_fields cfg _ r).1, hf]
          simp [markVisited]
          exact Or.inr hx
        · intro x hx
          rw [hf]
          simp [markVisited]
          exact Or.inr hx

theorem workerStep_visited_of_processed (cfg : CrawlerConfig) (s : CrawlState)
    (ev : FetchEvent) (ok : Bool) (u : String) (hp : stepProcessed s = some u) :
    u ∈ (workerStep cfg s ev ok).1.visited := by
  unfold stepProcessed at hp
  unfold workerStep
  cases hq : s.queue with
  | nil => rw [hq] at hp; exact absurd hp (by simp)
  | cons hd tl =>
    obtain ⟨url, depth⟩ := hd
    rw [hq] at hp
    simp only at hp
    by_cases hv : url ∈ s.visited
    · rw [if_pos hv] at hp; exact absurd hp (by simp)
    · rw [if_neg hv] at hp
      have hu : url = u := by simpa using hp
      subst hu
      simp only
      rw [if_neg (show ¬ url ∈ ({ s with queue := tl } : CrawlState).visited from hv)]
      have hf := (fetch_url_fields cfg (markVisited { s with queue := tl } url) url depth ev).1
      split
      · rw [hf]; simp [markVisited]
      · rename_i r heq
        split
        · rw [(recordStats_fields cfg _ r).1, hf]; simp [markVisited]
        · rw [hf]; simp [markVisited]

/-!
## Claim theorems
-/

/-- C3: the claim says a failed/non-200/timed-out robots fetch installs
an allow-all rule set in the cache, so that a second call for the same
domain does not re-fetch.  The code cannot do this: `RobotFileParser`
has no `feed` method, so `rp.feed(...)` raises `AttributeError` on
every path (200, non-200, and inside the inner `except` handler
again), the cache insertion at line 64 is never reached, and the outer
`except` returns `True`.  This theorem evaluates the code: starting
from an empty cache — the `__init__` state, and since the result state
is returned unchanged, the only state any sequence of calls can reach
— every network outcome (including a 200 response with a
`Disallow: /` body) and every URL yield `True` with the cache still
untouched.  So the "allowed" verdict part of the claim holds, but
nothing is ever cached and every call re-probes the domain. -/
theorem robots_gate_always_allows_and_never_caches (rc : RobotsChecker)
    (net : RobotsNet) (url : String) (hc : rc.robots_cache = []) :
    rc.can_fetch net url = (rc, true) := by
  unfold RobotsChecker.can_fetch
  cases urlparse? url with
  | none => rfl
  | some p =>
    simp only
    rw [hc]
    simp only [List.lookup_nil, RobotFileParser.feed]
    cases net with
    | success status body => simp
    | failure => simp

/-- Closed witness for `robots_gate_always_allows_and_never_caches`
at the initial checker state and a concrete 404 robots outcome. -/
theorem robots_gate_always_allows_and_never_caches_witness :
    ({} : RobotsChecker).robots_cache = [] ∧
    RobotsChecker.can_fetch {} (RobotsNet.success 404 "") "https://a.test/page" =
      ({}, true) := by
  refine ⟨rfl, ?_⟩
  exact robots_gate_always_allows_and_never_caches {} (RobotsNet.success 404 "")
    "https://a.test/page" rfl

/-- C5: a fetch attempt that times out yields a `CrawlResult` with
status code 0 and error `"Timeout"`; any other exception yields status
code 0 and the exception's message; and a worker iteration that
processes such a timeout record (with the store succeeding) leaves the
`successful` counter unchanged and increments `failed` by exactly 1. -/
theorem timeout_failure_semantics (cfg : CrawlerConfig) (s : CrawlState) (url : String)
    (depth : Nat) :
    fetch_url cfg s url depth .timeout =
      (s, some { url := url, status_code := 0, title := "", content_length := 0,
                 links := [], error := some "Timeout" }) ∧
    (∀ msg, fetch_url cfg s url depth (.exc msg) =
      (s, some { url := url, status_code := 0, title := "", content_length := 0,
                 links := [], error := some msg })) ∧
    (∀ u d rest, s.queue = (u, d) :: rest → u ∉ s.visited →
      (workerStep cfg s .timeout true).1.successful = s.successful ∧
      (workerStep cfg s .timeout true).1.failed = s.failed + 1) := by
  refine ⟨rfl, fun msg => rfl, ?_⟩
  intro u d rest hq hv
  unfold workerStep
  rw [hq]
  simp only
  rw [if_neg (show ¬ u ∈ ({ s with queue := rest } : CrawlState).visited from hv)]
  have hrec := recordStats_counters cfg
    (markVisited { s with queue := rest } u)
    { url := u, status_code := 0, title := "", content_length := 0,
      links := [], error := some "Timeout" }
  have h2 := (hrec.2 (by simp))
  simp only [fetch_url, markVisited] at h2 ⊢
  exact ⟨h2.1, h2.2⟩

/-- Closed witness for `timeout_failure_semantics` at a concrete
one-task state. -/
theorem timeout_failure_semantics_witness :
    (({ queue := [("http://a.test/x", 0)] } : CrawlState).queue =
      ("http://a.test/x", 0) :: []) ∧
    ("http://a.test/x" ∉ ({ queue := [("http://a.test/x", 0)] } : CrawlState).visited) ∧
    (workerStep cfg0 { queue := [("http://a.test/x", 0)] } .timeout true).1.successful =
      ({ queue := [("http://a.test/x", 0)] } : CrawlState).successful ∧
    (workerStep cfg0 { queue := [("http://a.test/x", 0)] } .timeout true).1.failed =
      ({ queue := [("http://a.test/x", 0)] } : CrawlState).failed + 1 := by
  refine ⟨rfl, by decide, ?_, ?_⟩
  · exact ((timeout_failure_semantics cfg0 { queue := [("http://a.test/x", 0)] }
      "http://a.test/x" 0).2.2 "http://a.test/x" 0 [] rfl (by decide)).1
  · exact ((timeout_failure_semantics cfg0 { queue := [("http://a.test/x", 0)] }
      "http://a.test/x" 0).2.2 "http://a.test/x" 0 [] rfl (by decide)).2

/-- C6: two URL strings whose parses agree on path, params and query
and differ only in the letter-casing of scheme and host (and in their
fragments, which may be anything) normalize to the identical string:
`normalize_url` lower-cases scheme and host, keeps path/params/query,
and drops the fragment, so neither the casing nor the fragment can
reach the output. -/
theorem normalize_collapses_case_and_fragment (u1 u2 : String) (p1 p2 : UrlParts)
    (h1 : urlparse? u1 = some p1) (h2 : urlparse? u2 = some p2)
    (hs : strToLower p1.scheme = strToLower p2.scheme)
    (hn : strToLower p1.netloc = strToLower p2.netloc)
    (hp : p1.path = p2.path) (hpar : p1.params = p2.params)
    (hq : p1.query = p2.query) :
    normalize_url u1 = normalize_url u2 := by
  unfold normalize_url
  rw [h1, h2]
  simp only [Option.map_some']
  rw [hs, hn, hp, hpar, hq]

/-- Closed witness for `normalize_collapses_case_and_fragment`: the
two concrete URLs differ in scheme/host casing and fragment only, and
normalize identically. -/
theorem normalize_collapses_case_and_fragment_witness :
    urlparse? "HTTP://Example.COM/A/b?q=1#frag" =
      some ⟨"http", "Example.COM", "/A/b", "", "q=1", "frag"⟩ ∧
    urlparse? "http://example.com/A/b?q=1#zzz" =
      some ⟨"http", "example.com", "/A/b", "", "q=1", "zzz"⟩ ∧
    normalize_url "HTTP://Example.COM/A/b?q=1#frag" =
      normalize_url "http://example.com/A/b?q=1#zzz" := by
  refine ⟨by decide, by decide, ?_⟩
  exact normalize_collapses_case_and_fragment
    "HTTP://Example.COM/A/b?q=1#frag" "http://example.com/A/b?q=1#zzz"
    ⟨"http", "Example.COM", "/A/b", "", "q=1", "frag"⟩
    ⟨"http", "example.com", "/A/b", "", "q=1", "zzz"⟩
    (by decide) (by decide) (by decide) (by decide) (by decide) (by decide) (by decide)

/-- C8: a response whose `content-type` header does not contain
`text/html` produces a `CrawlResult` with empty title and empty link
list but the response's real status code, and the shared state (in
particular the frontier queue) is left untouched — nothing is
extracted or enqueued. -/
theorem non_html_empty_record (cfg : CrawlerConfig) (s : CrawlState) (url : String)
    (depth : Nat) (status : Nat) (ct title : String) (len : Nat) (absLinks : List String)
    (h : strContains (strToLower ct) "text/html" = false) :
    fetch_url cfg s url depth (.response status ct title len absLinks) =
      (s, some { url := url, status_code := status, title := "", content_length := 0,
                 links := [], error := none }) := by
  simp only [fetch_url]
  rw [if_pos h]

/-- Closed witness for `non_html_empty_record` at a concrete JSON
response. -/
theorem non_html_empty_record_witness :
    strContains (strToLower "application/json; charset=utf-8") "text/html" = false ∧
    fetch_url cfg0 initState "http://a.test/x" 0
        (.response 301 "application/json; charset=utf-8" "T" 7 ["http://a.test/y"]) =
      (initState, some { url := "http://a.test/x", status_code := 301, title := "",
                         content_length := 0, links := [], error := none }) := by
  refine ⟨by decide, ?_⟩
  exact non_html_empty_record cfg0 initState "http://a.test/x" 0 301
    "application/json; charset=utf-8" "T" 7 ["http://a.test/y"] (by decide)

theorem cleanUrl_sublist (cs : List Char) : (cleanUrl cs).Sublist cs := by
  unfold cleanUrl
  exact (List.filter_sublist _).trans (List.dropWhile_sublist _)

theorem splitScheme_snd_sublist (cs : List Char) : (splitScheme cs).2.Sublist cs := by
  unfold splitScheme
  cases h : cs.findIdx? (· = ':') with
  | none => simp
  | some i =>
    simp only
    split
    · exact List.drop_sublist _ _
    · simp

theorem netlocOf_sublist (cs : List Char) : (netlocOf cs).Sublist cs := by
  unfold netlocOf
  split
  · exact ((List.takeWhile_sublist _).trans (List.drop_sublist _ _)).trans
      (splitScheme_snd_sublist cs)
  · simp

/-- C7 counterexample: the claim says `normalize_url` never raises on
any input string, but `urlparse` raises `ValueError("Invalid IPv6
URL")` when the authority contains an unmatched square bracket, and
`normalize_url` has no handler, so it propagates: on the malformed
input `"http://[foo"` the call raises (modelled as `none`) instead of
returning a string. -/
theorem normalize_raises_on_unmatched_bracket :
    normalize_url "http://[foo" = none := by decide

/-- C7 (amended): `normalize_url` is a pure function of its input but
not total — `urlparse` can raise (`ValueError("Invalid IPv6 URL")` on
an unmatched `'['`/`']'` in the authority, and a further NFKC
`ValueError` from `_checknetloc` on certain non-ASCII authorities) and
`normalize_url` propagates the exception.  On every ASCII input
containing no square bracket it does return a string: for an ASCII
netloc `_checknetloc` returns at its `isascii()` early exit, leaving
the bracket mismatch as the only raise, which bracket-freeness rules
out. -/
theorem normalize_total_on_bracketfree (u : String)
    (_ha : ∀ c ∈ u.data, c.toNat ≤ 127)
    (h : ∀ c ∈ u.data, c ≠ '[' ∧ c ≠ ']') :
    (normalize_url u).isSome = true := by
  have hnet : ∀ c ∈ netlocOf (cleanUrl u.data), c ≠ '[' ∧ c ≠ ']' := by
    intro c hc
    exact h c (((netlocOf_sublist _).trans (cleanUrl_sublist _)).subset hc)
  unfold normalize_url
  rw [Option.isSome_map']
  unfold urlparse?
  simp only
  rw [if_neg ?hg]
  case hg =>
    rintro (⟨hin, _⟩ | ⟨hin, _⟩)
    · exact (hnet '[' hin).1 rfl
    · exact (hnet ']' hin).2 rfl
  simp

/-- Closed witness for `normalize_total_on_bracketfree` at a concrete
ASCII, bracket-free URL. -/
theorem normalize_total_on_bracketfree_witness :
    (∀ c ∈ ("http://a.test/x?y=1#z" : String).data, c.toNat ≤ 127) ∧
    (∀ c ∈ ("http://a.test/x?y=1#z" : String).data, c ≠ '[' ∧ c ≠ ']') ∧
    (normalize_url "http://a.test/x?y=1#z").isSome = true := by
  refine ⟨by decide, by decide, ?_⟩
  exact normalize_total_on_bracketfree "http://a.test/x?y=1#z" (by decide) (by decide)

theorem runEvents_inv (cfg : CrawlerConfig) (P : CrawlState → Prop)
    (hstep : ∀ s ev ok, P s → P (workerStep cfg s ev ok).1) :
    ∀ evs s, P s → P (runEvents cfg s evs) := by
  intro evs
  induction evs with
  | nil => intro s hs; exact hs
  | cons e es ih =>
    intro s hs
    unfold runEvents
    have h1 := hstep s e.1 e.2 hs
    cases hw : workerStep cfg s e.1 e.2 with
    | mk s1 res =>
      rw [hw] at h1
      cases res with
      | exit => exact h1
      | cont => exact ih s1 h1

theorem admitLinks_queue_mem (cfg : CrawlerConfig) (base : Option String) (depth : Nat)
    (links : List String) (s : CrawlState) :
    ∀ p ∈ (admitLinks cfg s base depth links).queue, p ∈ s.queue ∨ p.2 = depth + 1 := by
  induction links generalizing s with
  | nil => intro p hp; exact Or.inl hp
  | cons l ls ih =>
    intro p hp
    simp only [admitLinks, List.foldl_cons] at hp
    rcases ih (linkAdmit cfg depth base s l) p hp with h | h
    · unfold linkAdmit at h
      split at h
      · simp only [List.mem_append] at h
        rcases h with h | h
        · exact Or.inl h
        · right
          simp only [List.mem_singleton] at h
          rw [h]
      · exact Or.inl h
    · exact Or.inr h

theorem fetch_url_queue_mem (cfg : CrawlerConfig) (s : CrawlState) (url : String)
    (depth : Nat) (ev : FetchEvent) :
    ∀ p ∈ (fetch_url cfg s url depth ev).1.queue,
      p ∈ s.queue ∨ (p.2 = depth + 1 ∧ (depth : Int) < cfg.max_depth) := by
  unfold fetch_url
  cases ev with
  | robotsBlocked => intro p hp; exact Or.inl hp
  | timeout => intro p hp; exact Or.inl hp
  | exc msg => intro p hp; exact Or.inl hp
  | response status ct title len links =>
    simp only
    split
    · intro p hp; exact Or.inl hp
    · split
      · rename_i hdepth
        split
        · split
          · intro p hp; exact Or.inl hp
          · intro p hp
            rcases admitLinks_queue_mem cfg _ depth (extract_links cfg links) s p hp with h | h
            · exact Or.inl h
            · exact Or.inr ⟨h, hdepth⟩
        · intro p hp
          rcases admitLinks_queue_mem cfg none depth (extract_links cfg links) s p hp with h | h
          · exact Or.inl h
          · exact Or.inr ⟨h, hdepth⟩
      · intro p hp; exact Or.inl hp

/-- The depth bound carried along a run: every queued task respects
`max_depth`. -/
def DepthOk (cfg : CrawlerConfig) (s : CrawlState) : Prop :=
  ∀ p ∈ s.queue, (p.2 : Int) ≤ cfg.max_depth

theorem workerStep_depthOk (cfg : CrawlerConfig) (s : CrawlState) (ev : FetchEvent)
    (ok : Bool) (h : DepthOk cfg s) : DepthOk cfg (workerStep cfg s ev ok).1 := by
  unfold workerStep
  cases hq : s.queue with
  | nil => simpa [DepthOk] using h
  | cons hd tl =>
    obtain ⟨url, depth⟩ := hd
    have htl : DepthOk cfg { s with queue := tl } := by
      intro p hp
      exact h p (by rw [hq]; exact List.mem_cons_of_mem _ hp)
    simp only
    split
    · exact htl
    · have hfetch : DepthOk cfg (fetch_url cfg (markVisited { s with queue := tl } url) url depth ev).1 := by
        intro p hp
        rcases fetch_url_queue_mem cfg (markVisited { s with queue := tl } url) url depth ev p hp with hm | ⟨hd1, hd2⟩
        · exact htl p (by simpa [markVisited] using hm)
        · rw [hd1]
          push_cast
          omega
      split
      · exact hfetch
      · rename_i r heq
        split
        · intro p hp
          rw [(recordStats_fields cfg _ r).2.1] at hp
          exact hfetch p hp
        · exact hfetch

theorem crawlSeeds_queue_mem (cfg : CrawlerConfig) (seeds : List String) :
    ∀ s s1, crawlSeeds cfg seeds s = some s1 →
      ∀ p ∈ s1.queue, p ∈ s.queue ∨ p.2 = 0 := by
  induction seeds with
  | nil =>
    intro s s1 hs p hp
    simp only [crawlSeeds, List.foldlM_nil, Option.pure_def, Option.some.injEq] at hs
    rw [hs]
    exact Or.inl hp
  | cons x xs ih =>
    intro s s1 hs p hp
    unfold crawlSeeds at hs
    rw [List.foldlM_cons] at hs
    unfold crawlSeeds at ih
    cases hstep : seedStep cfg s x with
    | none => rw [hstep] at hs; exact absurd hs (by simp)
    | some s2 =>
      rw [hstep] at hs
      rcases ih s2 s1 hs p hp with h | h
      · unfold seedStep at hstep
        cases hn : normalize_url x with
        | none => rw [hn] at hstep; exact absurd hstep (by simp)
        | some n =>
          rw [hn] at hstep
          simp only at hstep
          split at hstep
          · have := Option.some.inj hstep
            rw [← this] at h
            simp only [List.mem_append] at h
            rcases h with h | h
            · exact Or.inl h
            · right
              simp only [List.mem_singleton] at h
              rw [h]
          · have := Option.some.inj hstep
            rw [← this] at h
            exact Or.inl h
      · exact Or.inr h

/-- C2: every `CrawlTask` ever placed on the queue respects the depth
budget.  Seeds enter at depth 0 (so `max_depth` must be non-negative,
as every shipped configuration is — the default is 3 and depth is a
hop count); links enter at `depth + 1` only under the strict guard
`depth < max_depth` at line 222.  Hence along every run from a seeded
state, every task in the queue has depth at most `max_depth`. -/
theorem task_depth_never_exceeds_max (cfg : CrawlerConfig) (seeds : List String)
    (s0 : CrawlState) (evs : List (FetchEvent × Bool))
    (h0 : 0 ≤ cfg.max_depth)
    (hs : crawlSeeds cfg seeds initState = some s0) :
    ∀ p ∈ (runEvents cfg s0 evs).queue, (p.2 : Int) ≤ cfg.max_depth := by
  have hseed : DepthOk cfg s0 := by
    intro p hp
    rcases crawlSeeds_queue_mem cfg seeds initState s0 hs p hp with h | h
    · exact absurd h (by simp [initState])
    · rw [h]; exact_mod_cast h0
  exact runEvents_inv cfg (DepthOk cfg)
    (fun s ev ok h => workerStep_depthOk cfg s ev ok h) evs s0 hseed

/-- The state the seed loop produces from the single seed
`"http://a.test/x"` under the default configuration. -/
def seedStateA : CrawlState :=
  { queued := ["http://a.test/x"], queue := [("http://a.test/x", 0)] }

/-- Closed witness for `task_depth_never_exceeds_max`: a concrete
seeded run of one HTML page whose link enters at depth 1 ≤ 3. -/
theorem task_depth_never_exceeds_max_witness :
    (0 ≤ cfg0.max_depth) ∧
    crawlSeeds cfg0 ["http://a.test/x"] initState = some seedStateA ∧
    (("http://a.test/y", 1) ∈
      (runEvents cfg0 seedStateA
        [(FetchEvent.response 200 "text/html" "T" 5 ["http://a.test/y"], true)]).queue) ∧
    (((("http://a.test/y", 1) : String × Nat).2 : Int) ≤ cfg0.max_depth) := by
  refine ⟨by decide, by decide, by decide, ?_⟩
  exact task_depth_never_exceeds_max cfg0 ["http://a.test/x"] seedStateA
    [(FetchEvent.response 200 "text/html" "T" 5 ["http://a.test/y"], true)]
    (by decide) (by decide) ("http://a.test/y", 1) (by decide)

theorem is_valid_url_parses (cfg : CrawlerConfig) (u : String) (b : Option String)
    (h : is_valid_url cfg u b = true) :
    ∃ p, urlparse? u = some p ∧ p.netloc ≠ "" := by
  unfold is_valid_url at h
  cases hp : urlparse? u with
  | none => rw [hp] at h; exact absurd h (by simp)
  | some p =>
    rw [hp] at h
    simp only at h
    refine ⟨p, rfl, ?_⟩
    intro hne
    split at h
    · exact absurd h (by simp)
    · rename_i h1
      exact h1 (by simp [hne])

theorem is_valid_url_same_host (cfg : CrawlerConfig) (u : String) (b : String)
    (hb : b ≠ "") (hstay : cfg.stay_in_domain = true)
    (h : is_valid_url cfg u (some b) = true) :
    ∃ p, urlparse? u = some p ∧ p.netloc ≠ "" ∧ strToLower p.netloc = strToLower b := by
  obtain ⟨p, hp, hnet⟩ := is_valid_url_parses cfg u (some b) h
  refine ⟨p, hp, hnet, ?_⟩
  unfold is_valid_url at h
  rw [hp] at h
  simp only at h
  split at h
  · exact absurd h (by simp)
  · split at h
    · exact absurd h (by simp)
    · split at h
      · exact absurd h (by simp)
      · rename_i h3
        by_contra hne
        exact h3 (by simp [hb, hstay, hne])

/-- The single-seed domain-scope invariant: every queued task's URL
parses to a netloc that lower-cases to the seed's host `h`. -/
def HostOk (h : String) (s : CrawlState) : Prop :=
  ∀ p ∈ s.queue, ∃ q, urlparse? p.1 = some q ∧ q.netloc ≠ "" ∧ strToLower q.netloc = h

theorem admitLinks_hostOk (cfg : CrawlerConfig) (h : String) (b : String)
    (hb : b ≠ "") (hstay : cfg.stay_in_domain = true) (hbh : strToLower b = h)
    (depth : Nat) (links : List String) (s : CrawlState)
    (hs : HostOk h s) : HostOk h (admitLinks cfg s (some b) depth links) := by
  induction links generalizing s with
  | nil => exact hs
  | cons l ls ih =>
    simp only [admitLinks, List.foldl_cons] at ih ⊢
    apply ih
    unfold linkAdmit
    split
    · rename_i hcond
      intro p hp
      simp only [List.mem_append, List.mem_singleton] at hp
      rcases hp with hp | hp
      · exact hs p hp
      · obtain ⟨q, hq, hqn, hql⟩ := is_valid_url_same_host cfg l b hb hstay hcond.2.2
        subst hp
        exact ⟨q, hq, hqn, by rw [hql, hbh]⟩
    · exact hs

theorem workerStep_hostOk (cfg : CrawlerConfig) (h : String) (s : CrawlState)
    (ev : FetchEvent) (ok : Bool) (hstay : cfg.stay_in_domain = true)
    (hs : HostOk h s) : HostOk h (workerStep cfg s ev ok).1 := by
  unfold workerStep
  cases hq : s.queue with
  | nil => simpa [HostOk] using hs
  | cons hd tl =>
    obtain ⟨url, depth⟩ := hd
    have hhd := hs (url, depth) (by rw [hq]; exact List.mem_cons_self _ _)
    obtain ⟨q0, hq0, hq0n, hq0l⟩ := hhd
    have htl : HostOk h (markVisited { s with queue := tl } url) := by
      intro p hp
      exact hs p (by rw [hq]; exact List.mem_cons_of_mem _ (by simpa [markVisited] using hp))
    simp only
    split
    · intro p hp
      exact hs p (by rw [hq]; exact List.mem_cons_of_mem _ hp)
    · have hfetch : HostOk h (fetch_url cfg (markVisited { s with queue := tl } url) url depth ev).1 := by
        unfold fetch_url
        cases ev with
        | robotsBlocked => intro p hp; exact htl p hp
        | timeout => intro p hp; exact htl p hp
        | exc msg => intro p hp; exact htl p hp
        | response status ct title len links =>
          have hq0x : urlparse? url = some q0 := hq0
          simp only [hstay, eq_self_iff_true, if_true, hq0x]
          split
          · intro p hp; exact htl p hp
          · split
            · exact admitLinks_hostOk cfg h q0.netloc hq0n hstay hq0l depth
                (extract_links cfg links) _ htl
            · intro p hp; exact htl p hp
      split
      · exact hfetch
      · rename_i r heq
        split
        · intro p hp
          rw [(recordStats_fields cfg _ r).2.1] at hp
          exact hfetch p hp
        · exact hfetch

/-- C4: with `stay_in_domain` enabled, a single-seed crawl never
produces a task whose host differs case-insensitively from the seed's
host.  Link admission filters each link with `is_valid_url(link,
base_domain)` where `base_domain` is the *origin page's* netloc (line
223), and by induction every queued URL's netloc lower-cases to the
seed's, so scoping against the origin host coincides with scoping
against the seed host. -/
theorem domain_scoping_keeps_seed_host (cfg : CrawlerConfig) (seed : String)
    (s0 : CrawlState) (evs : List (FetchEvent × Bool)) (n : String) (q : UrlParts)
    (hstay : cfg.stay_in_domain = true)
    (hn : normalize_url seed = some n)
    (hq : urlparse? n = some q)
    (hs : crawlSeeds cfg [seed] initState = some s0) :
    ∀ p ∈ (runEvents cfg s0 evs).queue,
      ∃ pq, urlparse? p.1 = some pq ∧ strToLower pq.netloc = strToLower q.netloc := by
  have hseed : seedStep cfg initState seed = some s0 := by
    unfold crawlSeeds at hs
    rw [List.foldlM_cons] at hs
    cases hst : seedStep cfg initState seed with
    | none => rw [hst] at hs; exact absurd hs (by simp)
    | some s2 =>
      rw [hst] at hs
      have h2 : s2 = s0 := Option.some.inj hs
      exact congrArg some h2
  have h0 : HostOk (strToLower q.netloc) s0 := by
    unfold seedStep at hseed
    rw [hn] at hseed
    simp only at hseed
    split at hseed
    · rename_i hvalid
      obtain ⟨p1, hp1, hp1n⟩ := is_valid_url_parses cfg n none hvalid
      have hs0 := Option.some.inj hseed
      intro p hp
      rw [← hs0] at hp
      simp only [initState, List.nil_append, List.mem_singleton] at hp
      subst hp
      exact ⟨q, hq, by rw [hp1] at hq; rw [← Option.some.inj hq]; exact hp1n, rfl⟩
    · have hs0 := Option.some.inj hseed
      intro p hp
      rw [← hs0] at hp
      exact absurd hp (by simp [initState])
  have hrun := runEvents_inv cfg (HostOk (strToLower q.netloc))
    (fun s ev ok hh => workerStep_hostOk cfg (strToLower q.netloc) s ev ok hstay hh)
    evs s0 h0
  intro p hp
  obtain ⟨pq, hpq, _, hl⟩ := hrun p hp
  exact ⟨pq, hpq, hl⟩

/-- Closed witness for `domain_scoping_keeps_seed_host`: a concrete
run whose page links to a same-host and a foreign-host URL; the
foreign one is dropped and the surviving task keeps the seed host. -/
theorem domain_scoping_keeps_seed_host_witness :
    (cfg0.stay_in_domain = true) ∧
    normalize_url "http://a.test/x" = some "http://a.test/x" ∧
    urlparse? "http://a.test/x" = some ⟨"http", "a.test", "/x", "", "", ""⟩ ∧
    crawlSeeds cfg0 ["http://a.test/x"] initState = some seedStateA ∧
    (("http://a.test/y", 1) ∈
      (runEvents cfg0 seedStateA
        [(FetchEvent.response 200 "text/html" "T" 5
            ["http://a.test/y", "http://b.test/z"], true)]).queue) ∧
    (∃ pq, urlparse? "http://a.test/y" = some pq ∧
      strToLower pq.netloc = strToLower "a.test") := by
  refine ⟨by decide, by decide, by decide, by decide, by decide, ?_⟩
  exact domain_scoping_keeps_seed_host cfg0 "http://a.test/x" seedStateA
    [(FetchEvent.response 200 "text/html" "T" 5 ["http://a.test/y", "http://b.test/z"], true)]
    "http://a.test/x" ⟨"http", "a.test", "/x", "", "", ""⟩
    (by decide) (by decide) (by decide) (by decide)
    ("http://a.test/y", 1) (by decide)

theorem recordStats_exit_iff (cfg : CrawlerConfig) (s : CrawlState) (r : CrawlResult) :
    (recordStats cfg s r).2 = StepResult.exit ↔
      0 < cfg.max_pages ∧ (cfg.max_pages : Int) ≤ ((s.total_crawled + 1 : Nat) : Int) := by
  unfold recordStats
  have h1 : (if r.status_code = 200 then { s with successful := s.successful + 1 }
             else { s with failed := s.failed + 1 }).total_crawled = s.total_crawled := by
    split <;> rfl
  simp only [h1]
  split
  · rename_i hc
    exact iff_of_true rfl hc
  · rename_i hc
    exact iff_of_false (by simp) hc

/-- C9: a worker iteration ends the loop exactly when the bounded
dequeue times out on an empty frontier, or when a record was produced,
stored, and the positive `max_pages` budget is reached by the bumped
`total_crawled` counter.  In every other case — skip of a visited URL,
robots-blocked fetch, or an exception while storing (`storeOk =
false`, the `except` at line 301) — the loop continues. -/
theorem worker_exit_characterization (cfg : CrawlerConfig) (s : CrawlState)
    (ev : FetchEvent) (ok : Bool) :
    (workerStep cfg s ev ok).2 = StepResult.exit ↔
      s.queue = [] ∨
      ∃ url depth rest, s.queue = (url, depth) :: rest ∧ url ∉ s.visited ∧ ok = true ∧
        ∃ r, (fetch_url cfg (markVisited { s with queue := rest } url) url depth ev).2 = some r ∧
          0 < cfg.max_pages ∧
          (cfg.max_pages : Int) ≤
            (((fetch_url cfg (markVisited { s with queue := rest } url) url depth ev).1.total_crawled
              + 1 : Nat) : Int) := by
  cases hq : s.queue with
  | nil =>
    constructor
    · intro _h
      exact Or.inl rfl
    · intro _h
      unfold workerStep
      rw [hq]
  | cons hd tl =>
    obtain ⟨url, depth⟩ := hd
    unfold workerStep
    rw [hq]
    simp only
    by_cases hv : url ∈ s.visited
    · rw [if_pos hv]
      constructor
      · intro h
        exact absurd h (by simp)
      · rintro (h | ⟨u, d, rest, hqe, hnv, -⟩)
        · exact absurd h (by simp)
        · obtain ⟨hpair, -⟩ := List.cons_eq_cons.mp hqe
          obtain ⟨hu, -⟩ := Prod.mk.inj hpair
          exact absurd (hu ▸ hv) hnv
    · rw [if_neg hv]
      cases hf : (fetch_url cfg (markVisited { s with queue := tl } url) url depth ev).2 with
      | none =>
        constructor
        · intro h
          exact absurd h (by simp)
        · rintro (h | ⟨u, d, rest, hqe, hnv, hok, r, hr, -⟩)
          · exact absurd h (by simp)
          · obtain ⟨hpair, hrest⟩ := List.cons_eq_cons.mp hqe
            obtain ⟨hu, hd⟩ := Prod.mk.inj hpair
            subst hu; subst hd; subst hrest
            rw [hf] at hr
            exact absurd hr (by simp)
      | some r =>
        cases ok with
        | false =>
          simp only [Bool.false_eq_true, if_false]
          constructor
          · intro h
            exact absurd h (by simp)
          · rintro (h | ⟨u, d, rest, hqe, hnv, hok, -⟩)
            · exact absurd h (by simp)
            · exact absurd hok (by simp)
        | true =>
          simp only [if_true]
          rw [recordStats_exit_iff]
          constructor
          · rintro ⟨h1, h2⟩
            exact Or.inr ⟨url, depth, tl, rfl, hv, by trivial, r, hf, h1, h2⟩
          · rintro (h | ⟨u, d, rest, hqe, hnv, hok, r2, hr2, h1, h2⟩)
            · exact absurd h (by simp)
            · obtain ⟨hpair, hrest⟩ := List.cons_eq_cons.mp hqe
              obtain ⟨hu, hd⟩ := Prod.mk.inj hpair
              subst hu; subst hd; subst hrest
              exact ⟨h1, h2⟩

/-- C10: across any worker iteration the bookkeeping identity
`total_crawled = successful + failed` is preserved (a produced record
bumps `successful` exactly when its status code is 200 and `failed`
otherwise, and `total_crawled` with it; a robots-blocked or
store-failed iteration touches none of the three), and an iteration
whose fetch is skipped by the politeness gate increments only
`robots_blocked`, leaving the other three counters unchanged. -/
theorem stats_sum_invariant (cfg : CrawlerConfig) (s : CrawlState) (ev : FetchEvent)
    (ok : Bool) (h : s.total_crawled = s.successful + s.failed) :
    ((workerStep cfg s ev ok).1.total_crawled =
      (workerStep cfg s ev ok).1.successful + (workerStep cfg s ev ok).1.failed) ∧
    (∀ url depth rest, s.queue = (url, depth) :: rest → url ∉ s.visited →
      (workerStep cfg s FetchEvent.robotsBlocked ok).1.robots_blocked = s.robots_blocked + 1 ∧
      (workerStep cfg s FetchEvent.robotsBlocked ok).1.total_crawled = s.total_crawled ∧
      (workerStep cfg s FetchEvent.robotsBlocked ok).1.successful = s.successful ∧
      (workerStep cfg s FetchEvent.robotsBlocked ok).1.failed = s.failed) := by
  constructor
  · unfold workerStep
    cases hq : s.queue with
    | nil => exact h
    | cons hd tl =>
      obtain ⟨url, depth⟩ := hd
      simp only
      split
      · exact h
      · obtain ⟨-, hft, hfs, hfl⟩ :=
          fetch_url_fields cfg (markVisited { s with queue := tl } url) url depth ev
        rw [show (markVisited { s with queue := tl } url).total_crawled = s.total_crawled
          from rfl] at hft
        rw [show (markVisited { s with queue := tl } url).successful = s.successful
          from rfl] at hfs
        rw [show (markVisited { s with queue := tl } url).failed = s.failed from rfl] at hfl
        cases hf : (fetch_url cfg (markVisited { s with queue := tl } url) url depth ev).2 with
        | none =>
          simp only
          omega
        | some r =>
          cases ok with
          | false =>
            simp only [Bool.false_eq_true, if_false]
            omega
          | true =>
            simp only [if_true]
            have hrf := (recordStats_fields cfg
              (fetch_url cfg (markVisited { s with queue := tl } url) url depth ev).1 r).2.2.2.2
            by_cases h200 : r.status_code = 200
            · obtain ⟨hc1, hc2⟩ := (recordStats_counters cfg
                (fetch_url cfg (markVisited { s with queue := tl } url) url depth ev).1 r).1 h200
              omega
            · obtain ⟨hc1, hc2⟩ := (recordStats_counters cfg
                (fetch_url cfg (markVisited { s with queue := tl } url) url depth ev).1 r).2 h200
              omega
  · intro url depth rest hq hv
    unfold workerStep
    rw [hq]
    simp only
    rw [if_neg (show ¬ url ∈ ({ s with queue := rest } : CrawlState).visited from hv)]
    exact ⟨rfl, rfl, rfl, rfl⟩

/-- Closed witness for `stats_sum_invariant`: a one-task state with
consistent zero counters; the robots-blocked step bumps only
`robots_blocked`. -/
theorem stats_sum_invariant_witness :
    (({ queue := [("http://a.test/x", 0)] } : CrawlState).total_crawled =
      ({ queue := [("http://a.test/x", 0)] } : CrawlState).successful +
      ({ queue := [("http://a.test/x", 0)] } : CrawlState).failed) ∧
    (({ queue := [("http://a.test/x", 0)] } : CrawlState).queue =
      ("http://a.test/x", 0) :: []) ∧
    ("http://a.test/x" ∉ ({ queue := [("http://a.test/x", 0)] } : CrawlState).visited) ∧
    ((workerStep cfg0 { queue := [("http://a.test/x", 0)] }
        FetchEvent.robotsBlocked true).1.robots_blocked =
      ({ queue := [("http://a.test/x", 0)] } : CrawlState).robots_blocked + 1) ∧
    ((workerStep cfg0 { queue := [("http://a.test/x", 0)] }
        FetchEvent.robotsBlocked true).1.total_crawled =
      ({ queue := [("http://a.test/x", 0)] } : CrawlState).total_crawled) := by
  refine ⟨rfl, rfl, by decide, ?_, ?_⟩
  · exact ((stats_sum_invariant cfg0 { queue := [("http://a.test/x", 0)] }
      FetchEvent.robotsBlocked true rfl).2 "http://a.test/x" 0 [] rfl (by decide)).1
  · exact ((stats_sum_invariant cfg0 { queue := [("http://a.test/x", 0)] }
      FetchEvent.robotsBlocked true rfl).2 "http://a.test/x" 0 [] rfl (by decide)).2.1

theorem admitLinks_no_requeue (cfg : CrawlerConfig) (base : Option String) (depth : Nat)
    (links : List String) (s : CrawlState) (u : String)
    (hu : u ∈ s.queued ∨ u ∈ s.visited) :
    queueCount u (admitLinks cfg s base depth links).queue = queueCount u s.queue := by
  induction links generalizing s with
  | nil => rfl
  | cons l ls ih =>
    simp only [admitLinks, List.foldl_cons] at ih ⊢
    have hmem : u ∈ (linkAdmit cfg depth base s l).queued ∨
        u ∈ (linkAdmit cfg depth base s l).visited := by
      unfold linkAdmit
      split
      · rcases hu with h | h
        · exact Or.inl (List.mem_cons_of_mem _ h)
        · exact Or.inr h
      · exact hu
    rw [ih _ hmem]
    unfold linkAdmit
    split
    · rename_i hcond
      have hne : l ≠ u := by
        rintro rfl
        rcases hu with h | h
        · exact hcond.2.1 h
        · exact hcond.1 h
      simp only [queueCount, List.filter_append, List.length_append]
      have hsing : List.filter (fun p => p.1 == u) [(l, depth + 1)] = [] := by
        simp [hne]
      rw [hsing]
      simp
    · rfl

theorem stepProcessed_not_visited (s : CrawlState) (u : String)
    (hp : stepProcessed s = some u) : u ∉ s.visited := by
  unfold stepProcessed at hp
  cases hq : s.queue with
  | nil => rw [hq] at hp; exact absurd hp (by simp)
  | cons hd tl =>
    rw [hq] at hp
    obtain ⟨url, depth⟩ := hd
    simp only at hp
    split at hp
    · exact absurd hp (by simp)
    · rename_i hnv
      have he : url = u := by simpa using hp
      exact he ▸ hnv

theorem processedList_count_le (cfg : CrawlerConfig) :
    ∀ (evs : List (FetchEvent × Bool)) (s : CrawlState) (u : String),
      (processedList cfg s evs).count u ≤ if u ∈ s.visited then 0 else 1 := by
  intro evs
  induction evs with
  | nil =>
    intro s u
    simp only [processedList, List.count_nil]
    split <;> omega
  | cons e es ih =>
    intro s u
    unfold processedList
    cases hw : workerStep cfg s e.1 e.2 with
    | mk s1 res =>
      have hmono : s.visited ⊆ s1.visited := by
        have := workerStep_visited_mono cfg s e.1 e.2
        rw [hw] at this
        exact this
      cases res with
      | exit =>
        cases hp : stepProcessed s with
        | none => simp only [Option.toList_none, List.count_nil]; split <;> omega
        | some v =>
          simp only [Option.toList_some]
          by_cases hv : v = u
          · subst hv
            rw [if_neg (stepProcessed_not_visited s v hp)]
            simp
          · rw [List.count_singleton']
            simp only [if_neg (by exact fun h => hv (by simpa using h))]
            split <;> omega
      | cont =>
        have ih1 := ih s1 u
        cases hp : stepProcessed s with
        | none =>
          simp only [Option.toList_none, List.nil_append]
          by_cases hv : u ∈ s.visited
          · rw [if_pos hv]
            rw [if_pos (hmono hv)] at ih1
            omega
          · rw [if_neg hv]
            split at ih1 <;> omega
        | some v =>
          simp only [Option.toList_some, List.singleton_append, List.count_cons]
          by_cases hv : v = u
          · subst hv
            have hvis : v ∈ s1.visited := by
              have := workerStep_visited_of_processed cfg s e.1 e.2 v hp
              rw [hw] at this
              exact this
            rw [if_pos hvis] at ih1
            rw [if_neg (stepProcessed_not_visited s v hp)]
            simp
            omega
          · by_cases hv2 : u ∈ s.visited
            · rw [if_pos hv2]
              rw [if_pos (hmono hv2)] at ih1
              have : (v == u) = false := by simp [hv]
              simp [this]
              omega
            · rw [if_neg hv2]
              have : (v == u) = false := by simp [hv]
              simp [this]
              split at ih1 <;> omega

/-- C1 counterexample: the claim says *every* admission — including
seed admission in `crawl` — is guarded by a membership check against
`queued ∪ visited`, so a URL is admitted at most once per run.  But the
seed loop (lines 316–320) checks only validity, never membership:
seeding the same URL twice enqueues it twice. -/
theorem duplicate_seed_enqueued_twice :
    (crawlSeeds cfg0 ["http://a.test/x", "http://a.test/x"] initState).map
      (fun s => queueCount "http://a.test/x" s.queue) = some 2 := by decide

/-- C1 (amended): link admission in `fetch_url` *is* guarded by the
membership check against `queued ∪ visited`, so a URL already queued
or visited is never (re-)enqueued by link admission, and each distinct
URL is yielded (dequeued while unvisited, then marked visited) at most
once across any run; seed admission in `crawl`, however, checks only
validity, so a URL repeated in the seed list is enqueued once per
occurrence (see `duplicate_seed_enqueued_twice`).  Once a URL enters
`visited` it stays there for the rest of the run. -/
theorem frontier_admission_once_amended :
    (∀ (cfg : CrawlerConfig) (base : Option String) (depth : Nat) (links : List String)
       (s : CrawlState) (u : String), u ∈ s.queued ∨ u ∈ s.visited →
       queueCount u (admitLinks cfg s base depth links).queue = queueCount u s.queue) ∧
    (∀ (cfg : CrawlerConfig) (evs : List (FetchEvent × Bool)) (s : CrawlState) (u : String),
       (processedList cfg s evs).count u ≤ 1) ∧
    (∀ (cfg : CrawlerConfig) (s : CrawlState) (ev : FetchEvent) (ok : Bool) (u : String),
       u ∈ s.visited → u ∈ (workerStep cfg s ev ok).1.visited) := by
  refine ⟨?_, ?_, ?_⟩
  · intro cfg base depth links s u hu
    exact admitLinks_no_requeue cfg base depth links s u hu
  · intro cfg evs s u
    have h := processedList_count_le cfg evs s u
    split at h <;> omega
  · intro cfg s ev ok u hu
    exact workerStep_visited_mono cfg s ev ok hu

/-- Closed witness for `frontier_admission_once_amended`: an
already-queued URL is not re-admitted by link admission, a concrete
run yields its seed only once, and a visited URL stays visited. -/
theorem frontier_admission_once_amended_witness :
    ("http://a.test/x" ∈ ({ queued := ["http://a.test/x"] } : CrawlState).queued ∨
      "http://a.test/x" ∈ ({ queued := ["http://a.test/x"] } : CrawlState).visited) ∧
    queueCount "http://a.test/x"
        (admitLinks cfg0 { queued := ["http://a.test/x"] } none 0
          ["http://a.test/x"]).queue =
      queueCount "http://a.test/x" ({ queued := ["http://a.test/x"] } : CrawlState).queue ∧
    (processedList cfg0 seedStateA
        [(FetchEvent.timeout, true), (FetchEvent.timeout, true)]).count "http://a.test/x" ≤ 1 ∧
    ("http://v.test/" ∈ ({ visited := ["http://v.test/"] } : CrawlState).visited) ∧
    ("http://v.test/" ∈
      (workerStep cfg0 { visited := ["http://v.test/"] } FetchEvent.timeout true).1.visited) := by
  refine ⟨Or.inl (by decide), ?_, ?_, by decide, ?_⟩
  · exact frontier_admission_once_amended.1 cfg0 none 0 ["http://a.test/x"]
      { queued := ["http://a.test/x"] } "http://a.test/x" (Or.inl (by decide))
  · exact frontier_admission_once_amended.2.1 cfg0
      [(FetchEvent.timeout, true), (FetchEvent.timeout, true)] seedStateA "http://a.test/x"
  · exact frontier_admission_once_amended.2.2 cfg0 { visited := ["http://v.test/"] }
      FetchEvent.timeout true "http://v.test/" (by decide)
